import Mathlib

/-!
Shallow embedding of the daily-dose task log (Rust): the date resolver
(src/utils.rs, `construct_timestamp`), the task store (src/database.rs)
and the query/grouping engine (src/cmd_handler.rs), with theorems checking
the natural-language specification against this code.

Conventions of the embedding:
* A chrono `NaiveDate` is a record of year/month/day with an explicit
  validity predicate; `with_year` / `with_month` / `with_day` mirror
  chrono's field-replacing constructors, which return `None` when the
  resulting triple is not a real calendar date (chrono never clamps).
  chrono's internal year range (about plus/minus 262143) is idealised as
  unbounded: every date the program can reach is far inside that range.
* Rust `panic!` / `.expect` / `.unwrap` are modelled by the `panicked`
  constructor of `ROutcome` (the process aborts); a `Result::Err` that is
  returned to the caller is the `err` constructor, kept distinct.
* The SQLite table is a list of rows holding the stored textual column
  values; `BETWEEN` on the ISO date strings is lexicographic string
  comparison (SQLite binary collation agrees with it on ASCII), and
  `ORDER BY id` is insertion sort by the id string.
* The random `Ulid::new()` is passed in as an explicit `uid` argument.
* Rust's `HashMap<String, Vec<Task>>` grouping is modelled as an
  association list built in first-insertion order; the program sorts the
  collected pairs by date before use, so the unspecified iteration order
  of the hash map does not affect the sorted output.
-/

namespace DailyDose

/-- Outcome of running a piece of Rust code: a normal value, an error value
returned to the caller, or a process abort (`panic!`). -/
inductive ROutcome (α : Type) where
  | ok (val : α)
  | err (msg : String)
  | panicked (msg : String)
deriving DecidableEq

def ROutcome.bind {α β : Type} : ROutcome α → (α → ROutcome β) → ROutcome β
  | .ok a, f => f a
  | .err m, _ => .err m
  | .panicked m, _ => .panicked m

/-! ### Dates (chrono `NaiveDate`) -/

structure NDate where
  year : Int
  month : Nat
  day : Nat
deriving DecidableEq

def isLeapYear (y : Int) : Bool :=
  (y % 4 == 0 && y % 100 != 0) || y % 400 == 0

def daysInMonth (y : Int) (m : Nat) : Nat :=
  if m == 2 then (if isLeapYear y then 29 else 28)
  else if m == 4 || m == 6 || m == 9 || m == 11 then 30
  else 31

def NDate.isValid (d : NDate) : Bool :=
  decide (1 ≤ d.month) && decide (d.month ≤ 12) &&
    decide (1 ≤ d.day) && decide (d.day ≤ daysInMonth d.year d.month)

/-- chrono `NaiveDate::with_year`: replace the year, `None` if the result
is not a real date (e.g. Feb 29 of a non-leap year). -/
def NDate.with_year (d : NDate) (y : Int) : Option NDate :=
  let r : NDate := ⟨y, d.month, d.day⟩
  if r.isValid then some r else none

/-- chrono `NaiveDate::with_month`: replace the month, `None` if invalid. -/
def NDate.with_month (d : NDate) (m : Nat) : Option NDate :=
  let r : NDate := ⟨d.year, m, d.day⟩
  if r.isValid then some r else none

/-- chrono `NaiveDate::with_day`: replace the day, `None` if invalid. -/
def NDate.with_day (d : NDate) (dd : Nat) : Option NDate :=
  let r : NDate := ⟨d.year, d.month, dd⟩
  if r.isValid then some r else none

/-! ### The date resolver (src/utils.rs `construct_timestamp`)

The three `if let Some(..)` blocks, in source order: year, then month,
then day; each failing application runs `panic!("Invalid date")`. -/

def apply_year (timestamp : NDate) : Option Int → ROutcome NDate
  | none => .ok timestamp
  | some year =>
    match timestamp.with_year year with
    | some date => .ok date
    | none => .panicked "Invalid date"

def apply_month (timestamp : NDate) : Option Nat → ROutcome NDate
  | none => .ok timestamp
  | some month =>
    match timestamp.with_month month with
    | some date => .ok date
    | none => .panicked "Invalid date"

def apply_day (timestamp : NDate) : Option Nat → ROutcome NDate
  | none => .ok timestamp
  | some day =>
    match timestamp.with_day day with
    | some date => .ok date
    | none => .panicked "Invalid date"

/-- src/utils.rs `construct_timestamp`: start from today's date (`base`)
and apply the optional overrides in the fixed order year, month, day. -/
def construct_timestamp (base : NDate) (year : Option Int)
    (month day : Option Nat) : ROutcome NDate :=
  ((apply_year base year).bind fun t => apply_month t month).bind
    fun t => apply_day t day

/-! ### The status enumeration (src/main.rs `Status`) -/

inductive Status where
  | Todo
  | InProgress
  | Done
  | Blocked
deriving DecidableEq

/-- strum `Display` with `serialize_all = "snake_case"`: the stored token
of each variant. -/
def Status.to_string : Status → String
  | .Todo => "todo"
  | .InProgress => "in_progress"
  | .Done => "done"
  | .Blocked => "blocked"

/-- strum `EnumString` with `serialize_all = "snake_case"`: parse a stored
token back into a variant (exact match on the fixed token set). -/
def Status.from_str (s : String) : Option Status :=
  if s = "todo" then some .Todo
  else if s = "in_progress" then some .InProgress
  else if s = "done" then some .Done
  else if s = "blocked" then some .Blocked
  else none

/-- `impl ToSql for Status` (src/main.rs): the bound SQL value is
`self.to_string()`. -/
def Status.to_sql (s : Status) : String := s.to_string

/-- `impl FromSql for Status` (src/main.rs): `Status::from_str(s).unwrap()`
aborts the process when the stored token matches no variant. -/
def Status.column_result (s : String) : ROutcome Status :=
  match Status.from_str s with
  | some st => .ok st
  | none => .panicked "called Option unwrap on a None value"

/-! ### The task store (src/database.rs)

A stored row of the `tasks` table; every column is SQLite text, exactly as
persisted (`status` holds the token written by `Status.to_sql`). -/

structure Row where
  id : String
  description : String
  status : String
  date : String
deriving DecidableEq

/-- rusqlite errors the store can return to the caller. The only failure a
statement of this program can hit on a well-formed table is a constraint
violation (duplicate primary key on insert). -/
inductive DbError where
  | constraint (msg : String)
deriving DecidableEq

/-- src/database.rs `insert_task`: insert a new row with the freshly minted
ulid `uid`; the `id TEXT PRIMARY KEY` column rejects a duplicate id. The
description is bound as given: the function performs no validation on it. -/
def insert_task (table : List Row) (uid : String) (desc : String)
    (status : Status) (timestamp : String) :
    Except DbError (List Row × String) :=
  if table.any (fun r => r.id == uid) then
    .error (.constraint "UNIQUE constraint failed: tasks.id")
  else
    .ok (table ++ [⟨uid, desc, status.to_sql, timestamp⟩], uid)

/-- Lexicographic comparison of the underlying character lists: SQLite's
binary (memcmp) text collation, which `BETWEEN` and `ORDER BY` use; on the
ASCII ulids and ISO dates this program stores it is bytewise order. -/
def strLeb : List Char → List Char → Bool
  | [], _ => true
  | _ :: _, [] => false
  | a :: as, b :: bs =>
    if a < b then true else if a = b then strLeb as bs else false

def strLe (a b : String) : Prop := strLeb a.data b.data = true

instance (a b : String) : Decidable (strLe a b) :=
  inferInstanceAs (Decidable (_ = true))

lemma strLeb_total : ∀ a b : List Char, strLeb a b = true ∨ strLeb b a = true := by
  intro a
  induction a with
  | nil => intro b; left; rfl
  | cons x xs ih =>
    intro b
    cases b with
    | nil => right; rfl
    | cons y ys =>
      by_cases hxy : x < y
      · left; simp [strLeb, hxy]
      · by_cases heq : x = y
        · subst heq
          rcases ih ys with h | h
          · left; simp [strLeb, hxy, h]
          · right; simp [strLeb, hxy, h]
        · have hyx : y < x := by
            rcases lt_trichotomy x y with h | h | h
            · exact absurd h hxy
            · exact absurd h heq
            · exact h
          right
          simp [strLeb, hyx]

lemma strLeb_trans : ∀ a b c : List Char, strLeb a b = true →
    strLeb b c = true → strLeb a c = true := by
  intro a
  induction a with
  | nil => intro b c _ _; rfl
  | cons x xs ih =>
    intro b c hab hbc
    cases b with
    | nil => simp [strLeb] at hab
    | cons y ys =>
      cases c with
      | nil => simp [strLeb] at hbc
      | cons z zs =>
        simp only [strLeb] at hab hbc ⊢
        by_cases hxy : x < y
        · by_cases hyz : y < z
          · simp [lt_trans hxy hyz]
          · by_cases hyz2 : y = z
            · subst hyz2; simp [hxy]
            · simp [hyz, hyz2] at hbc
        · by_cases hxy2 : x = y
          · subst hxy2
            simp only [hxy, if_false, if_pos rfl] at hab
            by_cases hxz : x < z
            · simp [hxz]
            · by_cases hxz2 : x = z
              · subst hxz2
                simp only [hxz, if_false, if_pos rfl] at hbc ⊢
                exact ih ys zs hab hbc
              · simp [hxz, hxz2] at hbc
          · simp [hxy, hxy2] at hab

lemma strLe_total (a b : String) : strLe a b ∨ strLe b a :=
  strLeb_total a.data b.data

lemma strLe_trans {a b c : String} (h1 : strLe a b) (h2 : strLe b c) :
    strLe a c :=
  strLeb_trans a.data b.data c.data h1 h2

/-- `ORDER BY id`: ascending by the id string. -/
def idLe (a b : Row) : Prop := strLe a.id b.id

instance : DecidableRel idLe := fun a b =>
  inferInstanceAs (Decidable (strLe a.id b.id))

instance : IsTotal Row idLe := ⟨fun a b => strLe_total a.id b.id⟩

instance : IsTrans Row idLe := ⟨fun _ _ _ h h2 => strLe_trans h h2⟩

/-- src/database.rs `get_tasks_by_date`: with an end date, rows whose date
lies `BETWEEN :start_date AND :end_date` (inclusive); without one, rows
whose date equals `:start_date`; both `ORDER BY id`. -/
def get_tasks_by_date (table : List Row) (start_date : String)
    (end_date : Option String) : List Row :=
  let rows := match end_date with
    | some e => table.filter fun r =>
      decide (strLe start_date r.date ∧ strLe r.date e)
    | none => table.filter fun r => decide (r.date = start_date)
  List.insertionSort idLe rows

/-- src/database.rs `update_task_description`: issue the `UPDATE` and
return `Ok(())` unconditionally — the affected-row count is ignored, so an
id matching no row is not detected. -/
def update_task_description (table : List Row) (task_id : String)
    (desc : String) : Except DbError (List Row) :=
  .ok (table.map fun r =>
    if r.id = task_id then ⟨r.id, desc, r.status, r.date⟩ else r)

/-- src/database.rs `update_task_status`: same shape as
`update_task_description`; the new status is bound through `Status.to_sql`. -/
def update_task_status (table : List Row) (task_id : String)
    (status : Status) : Except DbError (List Row) :=
  .ok (table.map fun r =>
    if r.id = task_id then ⟨r.id, r.description, status.to_sql, r.date⟩ else r)

/-- src/database.rs `delete_task`: issue the `DELETE` and return `Ok(())`
unconditionally — the affected-row count is ignored. -/
def delete_task (table : List Row) (task_id : String) :
    Except DbError (List Row) :=
  .ok (table.filter fun r => decide (r.id ≠ task_id))

/-! ### The query & grouping engine (src/cmd_handler.rs `handle_cmd_list`) -/

/-- One pass of the grouping loop body (src/cmd_handler.rs lines 114-129):
push the task onto its date's bucket, creating the bucket if absent. -/
def groupInsert (task : Row) :
    List (String × List Row) → List (String × List Row)
  | [] => [(task.date, [task])]
  | (d, list) :: rest =>
    if d = task.date then (d, list ++ [task]) :: rest
    else (d, list) :: groupInsert task rest

/-- The `date_tasks_map` built by the `for task in tasks` loop. -/
def date_tasks_map (tasks : List Row) : List (String × List Row) :=
  tasks.foldl (fun m task => groupInsert task m) []

/-- The comparator `|a, b| b.0.cmp(a.0)`: date descending. -/
def dateDescRel (a b : String × List Row) : Prop := strLe b.1 a.1

instance : DecidableRel dateDescRel := fun a b =>
  inferInstanceAs (Decidable (strLe b.1 a.1))

instance : IsTotal (String × List Row) dateDescRel :=
  ⟨fun a b => (strLe_total a.1 b.1).symm⟩

instance : IsTrans (String × List Row) dateDescRel :=
  ⟨fun _ _ _ h h2 => strLe_trans h2 h⟩

/-- src/cmd_handler.rs lines 131-135: collect the map's entries and sort
them by date descending. -/
def task_grouped_by_date (tasks : List Row) : List (String × List Row) :=
  List.insertionSort dateDescRel (date_tasks_map tasks)

/-- The grouping pipeline of src/cmd_handler.rs `handle_cmd_list`: fetch
the rows of the date range and group and sort them for display. The two
endpoint dates are parameters (the program computes them from today's
local date and the month override). -/
def handle_cmd_list_groups (table : List Row) (start_date end_date : String) :
    List (String × List Row) :=
  task_grouped_by_date (get_tasks_by_date table start_date (some end_date))

/-! ### Index-based mark / unmark (src/cmd_handler.rs) -/

/-- src/cmd_handler.rs `handle_cmd_mark`: fetch today's tasks, select the
`task_index`-th row 1-based (`.get(i - 1).expect("Error: Index outbound")`
aborts when out of range), and set its status to `Done`. -/
def handle_cmd_mark (table : List Row) (today : String) (task_index : Nat) :
    ROutcome (List Row) :=
  match (get_tasks_by_date table today none)[task_index - 1]? with
  | some selected_row =>
    match update_task_status table selected_row.id Status.Done with
    | .ok t => .ok t
    | .error _ => .panicked "Failed to update task"
  | none => .panicked "Error: Index outbound"

/-- src/cmd_handler.rs `handle_cmd_unmark`: same selection, setting the
status to `Todo`. -/
def handle_cmd_unmark (table : List Row) (today : String) (task_index : Nat) :
    ROutcome (List Row) :=
  match (get_tasks_by_date table today none)[task_index - 1]? with
  | some selected_row =>
    match update_task_status table selected_row.id Status.Todo with
    | .ok t => .ok t
    | .error _ => .panicked "Failed to update task"
  | none => .panicked "Error: Index outbound"

/-! ### Helper lemmas: the date resolver -/

lemma ROutcome.bind_eq_ok {α β : Type} {x : ROutcome α} {f : α → ROutcome β}
    {b : β} (h : x.bind f = .ok b) : ∃ a, x = .ok a ∧ f a = .ok b := by
  cases x with
  | ok a => exact ⟨a, rfl, h⟩
  | err m => simp [ROutcome.bind] at h
  | panicked m => simp [ROutcome.bind] at h

lemma daysInMonth_feb_le (y : Int) : daysInMonth y 2 ≤ 29 := by
  simp only [daysInMonth]
  norm_num
  cases isLeapYear y <;> simp

lemma feb30_invalid (y : Int) : (⟨y, 2, 30⟩ : NDate).isValid = false := by
  have h := daysInMonth_feb_le y
  simp only [NDate.isValid, Bool.and_eq_false_iff, decide_eq_false_iff_not, not_le]
  right
  omega

lemma apply_year_ok_or_panic (t : NDate) (oy : Option Int) :
    (∃ r, apply_year t oy = .ok r) ∨
      apply_year t oy = .panicked "Invalid date" := by
  cases oy with
  | none => exact .inl ⟨t, rfl⟩
  | some y =>
    by_cases hv : (⟨y, t.month, t.day⟩ : NDate).isValid
    · exact .inl ⟨⟨y, t.month, t.day⟩, by simp [apply_year, NDate.with_year, hv]⟩
    · exact .inr (by simp [apply_year, NDate.with_year, hv])

lemma apply_year_ok {t : NDate} {oy : Option Int} {r : NDate}
    (h : apply_year t oy = .ok r) :
    r.month = t.month ∧ r.day = t.day ∧ (∀ y, oy = some y → r.year = y) ∧
      (t.isValid = true → r.isValid = true) := by
  cases oy with
  | none =>
    simp only [apply_year, ROutcome.ok.injEq] at h
    subst h
    simp
  | some y =>
    simp only [apply_year, NDate.with_year] at h
    by_cases hv : (⟨y, t.month, t.day⟩ : NDate).isValid
    · simp only [hv, if_true, ROutcome.ok.injEq] at h
      subst h
      exact ⟨rfl, rfl, fun y2 hy2 => Option.some.inj hy2, fun _ => hv⟩
    · simp [hv] at h

lemma apply_month_ok {t : NDate} {om : Option Nat} {r : NDate}
    (h : apply_month t om = .ok r) :
    r.year = t.year ∧ r.day = t.day ∧ (∀ m, om = some m → r.month = m) ∧
      (t.isValid = true → r.isValid = true) := by
  cases om with
  | none =>
    simp only [apply_month, ROutcome.ok.injEq] at h
    subst h
    simp
  | some m =>
    simp only [apply_month, NDate.with_month] at h
    by_cases hv : (⟨t.year, m, t.day⟩ : NDate).isValid
    · simp only [hv, if_true, ROutcome.ok.injEq] at h
      subst h
      exact ⟨rfl, rfl, fun m2 hm2 => Option.some.inj hm2, fun _ => hv⟩
    · simp [hv] at h

lemma apply_day_ok {t : NDate} {od : Option Nat} {r : NDate}
    (h : apply_day t od = .ok r) :
    r.year = t.year ∧ r.month = t.month ∧ (∀ d, od = some d → r.day = d) ∧
      (t.isValid = true → r.isValid = true) := by
  cases od with
  | none =>
    simp only [apply_day, ROutcome.ok.injEq] at h
    subst h
    simp
  | some d =>
    simp only [apply_day, NDate.with_day] at h
    by_cases hv : (⟨t.year, t.month, d⟩ : NDate).isValid
    · simp only [hv, if_true, ROutcome.ok.injEq] at h
      subst h
      exact ⟨rfl, rfl, fun d2 hd2 => Option.some.inj hd2, fun _ => hv⟩
    · simp [hv] at h

/-- Resolving with month 2 and day 30 aborts for every base date: either the
month application already fails (the base day does not exist in February) or
the day application fails (February never has 30 days). -/
lemma construct_timestamp_feb30 (base : NDate) :
    construct_timestamp base none (some 2) (some 30) =
      .panicked "Invalid date" := by
  show ((apply_year base none).bind fun t => apply_month t (some 2)).bind
      (fun t => apply_day t (some 30)) = .panicked "Invalid date"
  have hy : apply_year base none = .ok base := rfl
  rw [hy]
  show (apply_month base (some 2)).bind (fun t => apply_day t (some 30)) =
    .panicked "Invalid date"
  by_cases hv : (⟨base.year, 2, base.day⟩ : NDate).isValid
  · have hm : apply_month base (some 2) = .ok ⟨base.year, 2, base.day⟩ := by
      simp [apply_month, NDate.with_month, hv]
    rw [hm]
    show apply_day ⟨base.year, 2, base.day⟩ (some 30) = .panicked "Invalid date"
    have hd : (⟨base.year, 2, 30⟩ : NDate).isValid = false := feb30_invalid _
    simp [apply_day, NDate.with_day, hd]
  · have hm : apply_month base (some 2) = .panicked "Invalid date" := by
      simp [apply_month, NDate.with_month, hv]
    rw [hm]
    rfl

/-! ### Claim theorems: the date resolver -/

/-- Claim C1: the date resolver applies the optional overrides in the fixed
order year, then month, then day, to the base date; in particular, for base
date 2024-04-15 with overrides month=3 and day=31, resolution succeeds and
yields 2024-03-31. -/
theorem construct_timestamp_fixed_order :
    construct_timestamp ⟨2024, 4, 15⟩ none (some 3) (some 31) =
      .ok ⟨2024, 3, 31⟩ ∧
    ∀ base oy om od, construct_timestamp base oy om od =
      ((apply_year base oy).bind fun t => apply_month t om).bind
        fun t => apply_day t od :=
  ⟨by decide, fun _ _ _ _ => rfl⟩

/-- Claim C3, counterexample: at base date 2024-01-15 with overrides
month=2 and day=30, `construct_timestamp` does not return an `InvalidDate`
error to the caller — it aborts the whole process via
`panic!("Invalid date")` (the `panicked` outcome, distinct from the
returned-error outcome `err`). -/
theorem construct_timestamp_feb30_aborts :
    construct_timestamp ⟨2024, 1, 15⟩ none (some 2) (some 30) =
      .panicked "Invalid date" := by decide

/-- Claim C3, amended: whenever applying an override field to the date
being resolved would produce a calendar date that does not exist, the
resolution fails by aborting the process with `panic!("Invalid date")`
rather than returning an `InvalidDate` error to the caller; it never
silently clamps or rolls the date over (a successful resolution carries
every requested override field exactly, and is a valid calendar date). -/
theorem construct_timestamp_never_clamps (base : NDate)
    (hbase : base.isValid = true) :
    (∀ oy, construct_timestamp base oy (some 2) (some 30) =
        .panicked "Invalid date") ∧
    ∀ oy om od r, construct_timestamp base oy om od = .ok r →
      r.isValid = true ∧
      (∀ y, oy = some y → r.year = y) ∧
      (∀ m, om = some m → r.month = m) ∧
      (∀ d, od = some d → r.day = d) := by
  refine ⟨?_, ?_⟩
  · intro oy
    rcases apply_year_ok_or_panic base oy with ⟨t, ht⟩ | ht
    · show ((apply_year base oy).bind fun t => apply_month t (some 2)).bind
        (fun t => apply_day t (some 30)) = .panicked "Invalid date"
      rw [ht]
      exact construct_timestamp_feb30 t
    · show ((apply_year base oy).bind fun t => apply_month t (some 2)).bind
        (fun t => apply_day t (some 30)) = .panicked "Invalid date"
      rw [ht]
      rfl
  · intro oy om od r h
    obtain ⟨t2, h2, h3⟩ := ROutcome.bind_eq_ok h
    obtain ⟨t1, h1, h12⟩ := ROutcome.bind_eq_ok h2
    obtain ⟨hy_m, hy_d, hy_set, hy_v⟩ := apply_year_ok h1
    obtain ⟨hm_y, hm_d, hm_set, hm_v⟩ := apply_month_ok h12
    obtain ⟨hd_y, hd_m, hd_set, hd_v⟩ := apply_day_ok h3
    refine ⟨hd_v (hm_v (hy_v hbase)), ?_, ?_, hd_set⟩
    · intro y hy
      rw [hd_y, hm_y, hy_set y hy]
    · intro m hm
      rw [hd_m, hm_set m hm]

/-- Witness for the amended claim C3 at the concrete base date 2023-06-10:
resolution with month=2, day=30 aborts with the "Invalid date" panic. -/
theorem construct_timestamp_never_clamps_witness :
    construct_timestamp ⟨2023, 6, 10⟩ none (some 2) (some 30) =
      .panicked "Invalid date" :=
  (construct_timestamp_never_clamps ⟨2023, 6, 10⟩ (by decide)).1 none

/-! ### Claim theorems: the status round trip -/

/-- Claim C7: for every member `s` of the status enumeration, persisting a
task with status `s` (binding `s.to_sql`, the canonical
lowercase-with-underscores token) and reading the column back
(`Status.column_result`) yields exactly `s`; the four stored tokens are
listed explicitly. -/
theorem status_round_trip :
    (∀ s : Status, Status.column_result (Status.to_sql s) = .ok s) ∧
    (∀ s : Status, Status.from_str (Status.to_string s) = some s) ∧
    Status.to_sql .Todo = "todo" ∧
    Status.to_sql .InProgress = "in_progress" ∧
    Status.to_sql .Done = "done" ∧
    Status.to_sql .Blocked = "blocked" := by
  refine ⟨fun s => ?_, fun s => ?_, rfl, rfl, rfl, rfl⟩ <;> cases s <;> rfl

/-! ### Claim theorems: the task store -/

/-- Claim C2, counterexample: on a store holding only the task with id
"01A", calling `update_task_description`, `update_task_status` and
`delete_task` with the unmatched id "01B" all return `Ok` (plain success),
not a `NotFound` error — the store issues the write and never inspects the
affected-row count (no `NotFound` error exists in the code). The store
contents are unchanged, but the calls do not fail. -/
theorem store_unknown_id_ok_counterexample :
    update_task_description [⟨"01A", "walk dog", "todo", "2024-06-01"⟩]
        "01B" "water plants" =
      .ok [⟨"01A", "walk dog", "todo", "2024-06-01"⟩] ∧
    update_task_status [⟨"01A", "walk dog", "todo", "2024-06-01"⟩]
        "01B" Status.Done =
      .ok [⟨"01A", "walk dog", "todo", "2024-06-01"⟩] ∧
    delete_task [⟨"01A", "walk dog", "todo", "2024-06-01"⟩] "01B" =
      .ok [⟨"01A", "walk dog", "todo", "2024-06-01"⟩] := by
  refine ⟨?_, ?_, ?_⟩ <;> rfl

/-- Claim C2, amended: for every id that matches no stored task, each of
`update_task_description`, `update_task_status` and `delete_task` returns
plain success (`Ok`) — the store merely issues the write and ignores the
affected-row count, reporting no `NotFound` — and the store contents are
unchanged by the call. -/
theorem store_unknown_id_is_ok_noop (table : List Row) (i d : String)
    (s : Status) (h : ∀ r ∈ table, r.id ≠ i) :
    update_task_description table i d = .ok table ∧
    update_task_status table i s = .ok table ∧
    delete_task table i = .ok table := by
  refine ⟨?_, ?_, ?_⟩
  · show Except.ok (table.map fun r =>
      if r.id = i then ⟨r.id, d, r.status, r.date⟩ else r) = .ok table
    rw [List.map_congr_left fun r hr => if_neg (h r hr), List.map_id']
  · show Except.ok (table.map fun r =>
      if r.id = i then ⟨r.id, r.description, s.to_sql, r.date⟩ else r) =
        .ok table
    rw [List.map_congr_left fun r hr => if_neg (h r hr), List.map_id']
  · show Except.ok (table.filter fun r => decide (r.id ≠ i)) = .ok table
    rw [List.filter_eq_self.mpr fun r hr => decide_eq_true (h r hr)]

/-- Witness for the amended claim C2 at a concrete store and id. -/
theorem store_unknown_id_is_ok_noop_witness :
    update_task_description [⟨"01A", "walk dog", "todo", "2024-06-01"⟩]
        "01C" "feed cat" =
      .ok [⟨"01A", "walk dog", "todo", "2024-06-01"⟩] ∧
    update_task_status [⟨"01A", "walk dog", "todo", "2024-06-01"⟩]
        "01C" Status.Todo =
      .ok [⟨"01A", "walk dog", "todo", "2024-06-01"⟩] ∧
    delete_task [⟨"01A", "walk dog", "todo", "2024-06-01"⟩] "01C" =
      .ok [⟨"01A", "walk dog", "todo", "2024-06-01"⟩] :=
  store_unknown_id_is_ok_noop
    [⟨"01A", "walk dog", "todo", "2024-06-01"⟩] "01C" "feed cat"
    Status.Todo (by decide)

/-- Claim C4, counterexample: `insert_task` with the empty description ""
succeeds and appends a row (no `DescriptionEmpty` error exists in the
store, and the store state changes), and `update_task_description` with ""
succeeds and blanks the stored description. -/
theorem insert_empty_description_ok_counterexample :
    insert_task [] "01A" "" Status.Todo "2024-06-01" =
      .ok ([⟨"01A", "", "todo", "2024-06-01"⟩], "01A") ∧
    update_task_description [⟨"01A", "walk dog", "todo", "2024-06-01"⟩]
        "01A" "" =
      .ok [⟨"01A", "", "todo", "2024-06-01"⟩] := by
  refine ⟨?_, ?_⟩ <;> rfl

/-- Claim C4, amended: the store applies no validation to descriptions:
`insert_task` with any description — the empty or blank string included —
succeeds (when the minted id is fresh) and appends the row with the
description exactly as given, and `update_task_description` with any new
description — "" included — succeeds and overwrites the description of
every row whose id matches. The only empty-description rejection in the
program is the CLI argument parser outside the store. -/
theorem store_no_description_validation (table : List Row)
    (uid desc ts : String) (s : Status) (h : ∀ r ∈ table, r.id ≠ uid) :
    insert_task table uid desc s ts =
      .ok (table ++ [⟨uid, desc, s.to_sql, ts⟩], uid) ∧
    ∀ t : List Row, ∀ i d : String,
      update_task_description t i d =
        .ok (t.map fun r =>
          if r.id = i then ⟨r.id, d, r.status, r.date⟩ else r) := by
  refine ⟨?_, fun t i d => rfl⟩
  have hany : (table.any fun r => r.id == uid) = false := by
    rw [List.any_eq_false]
    intro r hr
    simpa using h r hr
  simp [insert_task, hany]

/-- Witness for the amended claim C4 at the empty description on a
concrete store. -/
theorem store_no_description_validation_witness :
    insert_task [⟨"01A", "walk dog", "todo", "2024-06-01"⟩] "01B" ""
        Status.Todo "2024-06-02" =
      .ok ([⟨"01A", "walk dog", "todo", "2024-06-01"⟩,
            ⟨"01B", "", "todo", "2024-06-02"⟩], "01B") ∧
    ∀ t : List Row, ∀ i d : String,
      update_task_description t i d =
        .ok (t.map fun r =>
          if r.id = i then ⟨r.id, d, r.status, r.date⟩ else r) :=
  store_no_description_validation
    [⟨"01A", "walk dog", "todo", "2024-06-01"⟩] "01B" "" "2024-06-02"
    Status.Todo (by decide)

/-- Claim C9: `mark` (an unconditional `UPDATE` of the status column to
"done") succeeds from any current status; marking again succeeds as a
no-op: the second call returns `Ok` with the very same store, and after
each call every row with the marked id has status "done". Rows with other
ids are carried over unchanged. -/
theorem mark_done_idempotent (table : List Row) (i : String) :
    ∃ t2, update_task_status table i Status.Done = .ok t2 ∧
      update_task_status t2 i Status.Done = .ok t2 ∧
      (∀ r ∈ t2, r.id = i → r.status = "done") ∧
      (∀ r ∈ table, r.id ≠ i → r ∈ t2) := by
  classical
  refine ⟨table.map fun r =>
    if r.id = i then ⟨r.id, r.description, Status.to_sql Status.Done, r.date⟩
    else r, ?_, ?_, ?_, ?_⟩
  · rfl
  · show Except.ok _ = Except.ok _
    congr 1
    rw [List.map_map]
    refine List.map_congr_left fun r _ => ?_
    by_cases hr : r.id = i
    · simp [Function.comp, hr]
    · simp [Function.comp, hr]
  · intro r hr hri
    obtain ⟨x, hx, hxr⟩ := List.mem_map.mp hr
    by_cases hxi : x.id = i
    · rw [← hxr]
      simp [hxi, Status.to_sql, Status.to_string]
    · rw [if_neg hxi] at hxr
      rw [← hxr] at hri
      exact absurd hri hxi
  · intro r hr hri
    have : (if r.id = i
        then (⟨r.id, r.description, Status.to_sql Status.Done, r.date⟩ : Row)
        else r) = r := if_neg hri
    rw [← this]
    exact List.mem_map_of_mem _ hr

/-! ### Claim theorems: index-based mark and unmark -/

/-- Claim C8: for index-based mark and unmark, an index outside
`[1, count]` of today's task list aborts with the user-facing
"Error: Index outbound" failure (the `.expect` on the out-of-range
`.get`); the index is never clamped to a valid position and no update is
issued, so no task's status changes (the panicked outcome carries no new
store). -/
theorem mark_unmark_index_out_of_range (table : List Row) (today : String)
    (idx : Nat) (h1 : 1 ≤ idx)
    (h2 : (get_tasks_by_date table today none).length < idx) :
    handle_cmd_mark table today idx = .panicked "Error: Index outbound" ∧
    handle_cmd_unmark table today idx = .panicked "Error: Index outbound" ∧
    ∀ t, handle_cmd_mark table today idx ≠ .ok t ∧
      handle_cmd_unmark table today idx ≠ .ok t := by
  have hget : (get_tasks_by_date table today none)[idx - 1]? = none :=
    List.getElem?_eq_none (by omega)
  have hm : handle_cmd_mark table today idx =
      .panicked "Error: Index outbound" := by
    unfold handle_cmd_mark
    rw [hget]
  have hu : handle_cmd_unmark table today idx =
      .panicked "Error: Index outbound" := by
    unfold handle_cmd_unmark
    rw [hget]
  refine ⟨hm, hu, fun t => ⟨fun hc => ?_, fun hc => ?_⟩⟩
  · rw [hm] at hc
    exact ROutcome.noConfusion hc
  · rw [hu] at hc
    exact ROutcome.noConfusion hc

/-- Witness for claim C8: on a day with exactly 2 stored tasks, mark and
unmark at index 3 abort with the out-of-range failure. -/
theorem mark_unmark_index_out_of_range_witness :
    handle_cmd_mark
        [⟨"01A", "A", "todo", "2024-06-01"⟩,
         ⟨"01B", "B", "todo", "2024-06-01"⟩] "2024-06-01" 3 =
      .panicked "Error: Index outbound" ∧
    handle_cmd_unmark
        [⟨"01A", "A", "todo", "2024-06-01"⟩,
         ⟨"01B", "B", "todo", "2024-06-01"⟩] "2024-06-01" 3 =
      .panicked "Error: Index outbound" :=
  ⟨(mark_unmark_index_out_of_range
      [⟨"01A", "A", "todo", "2024-06-01"⟩,
       ⟨"01B", "B", "todo", "2024-06-01"⟩] "2024-06-01" 3
      (by decide) (by decide)).1,
   (mark_unmark_index_out_of_range
      [⟨"01A", "A", "todo", "2024-06-01"⟩,
       ⟨"01B", "B", "todo", "2024-06-01"⟩] "2024-06-01" 3
      (by decide) (by decide)).2.1⟩

/-! ### Helper lemmas: grouping -/

lemma groupInsert_flatMap_perm (t : Row) (m : List (String × List Row)) :
    ((groupInsert t m).flatMap fun g => g.2).Perm
      (t :: m.flatMap fun g => g.2) := by
  induction m with
  | nil => simp [groupInsert]
  | cons hd rest ih =>
    obtain ⟨d, ts⟩ := hd
    by_cases hdt : d = t.date
    · simp only [groupInsert, if_pos hdt, List.flatMap_cons]
      have he : (ts ++ [t]) ++ (rest.flatMap fun g => g.2) =
          ts ++ (t :: (rest.flatMap fun g => g.2)) := by simp
      rw [he]
      exact List.perm_middle
    · simp only [groupInsert, if_neg hdt, List.flatMap_cons]
      exact (ih.append_left ts).trans List.perm_middle

lemma foldl_groupInsert_flatMap_perm (tasks : List Row) :
    ∀ m : List (String × List Row),
      ((tasks.foldl (fun acc t => groupInsert t acc) m).flatMap
          fun g => g.2).Perm
        ((m.flatMap fun g => g.2) ++ tasks) := by
  induction tasks with
  | nil => intro m; simp
  | cons t rest ih =>
    intro m
    have h1 := ih (groupInsert t m)
    have h2 : (((groupInsert t m).flatMap fun g => g.2) ++ rest).Perm
        ((t :: (m.flatMap fun g => g.2)) ++ rest) :=
      (groupInsert_flatMap_perm t m).append_right rest
    exact (h1.trans h2).trans List.perm_middle.symm

lemma date_tasks_map_flatMap_perm (tasks : List Row) :
    ((date_tasks_map tasks).flatMap fun g => g.2).Perm tasks := by
  simpa [date_tasks_map] using foldl_groupInsert_flatMap_perm tasks []

lemma task_grouped_by_date_flatMap_perm (tasks : List Row) :
    ((task_grouped_by_date tasks).flatMap fun g => g.2).Perm tasks := by
  have hs : (task_grouped_by_date tasks).Perm (date_tasks_map tasks) :=
    List.perm_insertionSort dateDescRel _
  exact (hs.flatMap_right _).trans (date_tasks_map_flatMap_perm tasks)

lemma groupInsert_forall {P Q : String × List Row → Prop} (t : Row)
    (hPQ : ∀ g, P g → Q g) (hnew : Q (t.date, [t]))
    (happ : ∀ d ts, d = t.date → P (d, ts) → Q (d, ts ++ [t])) :
    ∀ m : List (String × List Row), (∀ g ∈ m, P g) →
      ∀ g ∈ groupInsert t m, Q g := by
  intro m
  induction m with
  | nil =>
    intro _ g hg
    simp only [groupInsert, List.mem_singleton] at hg
    subst hg
    exact hnew
  | cons hd rest ih =>
    obtain ⟨d, ts⟩ := hd
    intro hm g hg
    by_cases hdt : d = t.date
    · simp only [groupInsert, if_pos hdt] at hg
      rcases List.mem_cons.mp hg with hg | hg
      · subst hg
        exact happ d ts hdt (hm (d, ts) (List.mem_cons_self _ _))
      · exact hPQ g (hm g (List.mem_cons_of_mem _ hg))
    · simp only [groupInsert, if_neg hdt] at hg
      rcases List.mem_cons.mp hg with hg | hg
      · subst hg
        exact hPQ _ (hm _ (List.mem_cons_self _ _))
      · exact ih (fun g2 hg2 => hm g2 (List.mem_cons_of_mem _ hg2)) g hg

lemma foldl_groupInsert_preserve {P : String × List Row → Prop}
    (hstep : ∀ (t : Row) (m : List (String × List Row)),
      (∀ g ∈ m, P g) → ∀ g ∈ groupInsert t m, P g) :
    ∀ (tasks : List Row) (m : List (String × List Row)), (∀ g ∈ m, P g) →
      ∀ g ∈ tasks.foldl (fun acc t => groupInsert t acc) m, P g := by
  intro tasks
  induction tasks with
  | nil => intro m hm; exact hm
  | cons t rest ih =>
    intro m hm
    exact ih (groupInsert t m) (hstep t m hm)

lemma date_tasks_map_keys (tasks : List Row) :
    ∀ g ∈ date_tasks_map tasks, ∀ x ∈ g.2, x.date = g.1 := by
  refine @foldl_groupInsert_preserve (fun g => ∀ x ∈ g.2, x.date = g.1)
    ?_ tasks [] (by simp)
  intro t m hm
  refine groupInsert_forall t (fun g h => h) ?_ ?_ m hm
  · intro x hx
    rw [List.mem_singleton] at hx
    subst hx
    rfl
  · intro d ts hd hP x hx
    rcases List.mem_append.mp hx with hx | hx
    · exact hP x hx
    · rw [List.mem_singleton] at hx
      subst hx
      rw [hd]

lemma date_tasks_map_nonempty (tasks : List Row) :
    ∀ g ∈ date_tasks_map tasks, g.2 ≠ [] := by
  refine @foldl_groupInsert_preserve (fun g => g.2 ≠ [])
    ?_ tasks [] (by simp)
  intro t m hm
  refine groupInsert_forall t (fun g h => h) ?_ ?_ m hm
  · simp
  · intro d ts _ _
    simp

lemma foldl_groupInsert_pairwise :
    ∀ (tasks : List Row) (m : List (String × List Row)),
      tasks.Pairwise idLe →
      (∀ g ∈ m, g.2.Pairwise idLe ∧ ∀ x ∈ g.2, ∀ u ∈ tasks, idLe x u) →
      ∀ g ∈ tasks.foldl (fun acc t => groupInsert t acc) m,
        g.2.Pairwise idLe := by
  intro tasks
  induction tasks with
  | nil =>
    intro m _ hm g hg
    exact (hm g hg).1
  | cons t rest ih =>
    intro m hp hm
    have hp2 := List.pairwise_cons.mp hp
    have hstep : ∀ g ∈ groupInsert t m,
        g.2.Pairwise idLe ∧ ∀ x ∈ g.2, ∀ u ∈ rest, idLe x u := by
      refine groupInsert_forall t ?_ ?_ ?_ m hm
      · exact fun g hPg =>
          ⟨hPg.1, fun x hx u hu => hPg.2 x hx u (List.mem_cons_of_mem _ hu)⟩
      · constructor
        · exact List.pairwise_singleton _ _
        · intro x hx u hu
          rw [List.mem_singleton] at hx
          subst hx
          exact hp2.1 u hu
      · intro d ts hd hPts
        constructor
        · rw [List.pairwise_append]
          refine ⟨hPts.1, List.pairwise_singleton _ _, ?_⟩
          intro x hx y hy
          rw [List.mem_singleton] at hy
          rw [hy]
          exact hPts.2 x hx t (List.mem_cons_self _ _)
        · intro x hx u hu
          rcases List.mem_append.mp hx with hx | hx
          · exact hPts.2 x hx u (List.mem_cons_of_mem _ hu)
          · rw [List.mem_singleton] at hx
            subst hx
            exact hp2.1 u hu
    exact ih (groupInsert t m) hp2.2 hstep

lemma date_tasks_map_pairwise (tasks : List Row)
    (h : tasks.Pairwise idLe) :
    ∀ g ∈ date_tasks_map tasks, g.2.Pairwise idLe :=
  foldl_groupInsert_pairwise tasks [] h (by simp)

/-! ### Claim theorems: the query & grouping engine -/

/-- Claim C6: `get_tasks_by_date` with an end date returns exactly the
tasks whose date lies in the inclusive interval `[start_date, end_date]`
(membership characterisation and multiset equality with the filtered
table), ordered by id ascending; with the end date omitted it returns
exactly the tasks whose date equals `start_date` (the `fetch_exact`
semantics), ordered by id ascending. -/
theorem get_tasks_by_date_semantics (table : List Row) (s e : String) :
    (∀ r, r ∈ get_tasks_by_date table s (some e) ↔
      r ∈ table ∧ strLe s r.date ∧ strLe r.date e) ∧
    List.Sorted idLe (get_tasks_by_date table s (some e)) ∧
    (get_tasks_by_date table s (some e)).Perm
      (table.filter fun r => decide (strLe s r.date ∧ strLe r.date e)) ∧
    (∀ r, r ∈ get_tasks_by_date table s none ↔ r ∈ table ∧ r.date = s) ∧
    List.Sorted idLe (get_tasks_by_date table s none) ∧
    (get_tasks_by_date table s none).Perm
      (table.filter fun r => decide (r.date = s)) := by
  refine ⟨?_, ?_, ?_, ?_, ?_, ?_⟩
  · intro r
    show r ∈ List.insertionSort idLe
      (table.filter fun r => decide (strLe s r.date ∧ strLe r.date e)) ↔ _
    rw [List.mem_insertionSort, List.mem_filter]
    simp
  · exact List.sorted_insertionSort idLe _
  · exact List.perm_insertionSort idLe _
  · intro r
    show r ∈ List.insertionSort idLe
      (table.filter fun r => decide (r.date = s)) ↔ _
    rw [List.mem_insertionSort, List.mem_filter]
    simp
  · exact List.sorted_insertionSort idLe _
  · exact List.perm_insertionSort idLe _

/-- Claim C5: the grouping pipeline of `handle_cmd_list` partitions the
fetched tasks into groups keyed by exact date-string equality (every task
of a group carries the group's date), returns the groups ordered by date
descending, keeps each group's tasks in ascending-id order (the order the
fetch produced), never emits a group with zero tasks, and returns the
empty sequence of groups — not an error — when the fetch returns no
tasks. -/
theorem handle_cmd_list_grouping (table : List Row) (s e : String) :
    List.Sorted dateDescRel (handle_cmd_list_groups table s e) ∧
    (∀ g ∈ handle_cmd_list_groups table s e, ∀ x ∈ g.2, x.date = g.1) ∧
    (∀ g ∈ handle_cmd_list_groups table s e, g.2 ≠ []) ∧
    (∀ g ∈ handle_cmd_list_groups table s e, g.2.Pairwise idLe) ∧
    (get_tasks_by_date table s (some e) = [] →
      handle_cmd_list_groups table s e = []) := by
  refine ⟨?_, ?_, ?_, ?_, ?_⟩
  · exact List.sorted_insertionSort dateDescRel _
  · intro g hg
    have hg2 : g ∈ date_tasks_map (get_tasks_by_date table s (some e)) := by
      simpa only [handle_cmd_list_groups, task_grouped_by_date,
        List.mem_insertionSort] using hg
    exact date_tasks_map_keys _ g hg2
  · intro g hg
    have hg2 : g ∈ date_tasks_map (get_tasks_by_date table s (some e)) := by
      simpa only [handle_cmd_list_groups, task_grouped_by_date,
        List.mem_insertionSort] using hg
    exact date_tasks_map_nonempty _ g hg2
  · intro g hg
    have hg2 : g ∈ date_tasks_map (get_tasks_by_date table s (some e)) := by
      simpa only [handle_cmd_list_groups, task_grouped_by_date,
        List.mem_insertionSort] using hg
    have hsorted : (get_tasks_by_date table s (some e)).Pairwise idLe :=
      List.sorted_insertionSort idLe _
    exact date_tasks_map_pairwise _ hsorted g hg2
  · intro h
    show task_grouped_by_date (get_tasks_by_date table s (some e)) = []
    rw [h]
    rfl

/-- Claim C10: the grouping step of the list operation preserves the
fetched task list as a multiset — flattening the emitted groups is a
permutation of the fetched list, so every fetched task lands in exactly
one group and none is dropped or duplicated — and each task sits in the
group keyed by its own date field. -/
theorem grouping_preserves_multiset (table : List Row) (s e : String) :
    ((handle_cmd_list_groups table s e).flatMap fun g => g.2).Perm
      (get_tasks_by_date table s (some e)) ∧
    (∀ tasks : List Row,
      ((task_grouped_by_date tasks).flatMap fun g => g.2).Perm tasks) ∧
    ∀ g ∈ handle_cmd_list_groups table s e, ∀ x ∈ g.2, x.date = g.1 := by
  refine ⟨task_grouped_by_date_flatMap_perm _,
    fun tasks => task_grouped_by_date_flatMap_perm tasks, ?_⟩
  intro g hg
  have hg2 : g ∈ date_tasks_map (get_tasks_by_date table s (some e)) := by
    simpa only [handle_cmd_list_groups, task_grouped_by_date,
      List.mem_insertionSort] using hg
  exact date_tasks_map_keys _ g hg2

end DailyDose
